import Mathlib

/-!
A shallow embedding of the core logic of a small Flask personal-finance
tracker (`app.py` / `forms.py`): the filter evaluator `_apply_filters`,
the dashboard aggregation in `index` (summary totals, monthly series,
category breakdown, budget status), the budget upsert in `set_budget`,
and the category-creation path `add_category`.

Modelling conventions:
* Monetary amounts (Python floats) are modelled as rationals `ℚ`.
* Timestamps are modelled at one-second granularity (`DT`), so
  `datetime.max.time()` is 23:59:59 (the app itself only ever stores
  midnight timestamps).
* Database rows are Lean structures, tables are lists of rows, and the
  SQLAlchemy relationship attributes (`t.category`, `b.category`,
  `c.parent`) are resolved by an id lookup over the category table.
* Fallible Python operations (`int(...)`, `strptime`, division, reading
  an unbound loop variable) are embedded with `Option`.
* Python truthiness tests on strings/numbers/None are translated
  explicitly (`"" `, `0`, `None` are falsy).
-/

namespace FinanceTracker

/-- Digit character for a value below ten (models Python's decimal digit
output; callers only use it with arguments below ten). -/
def digitChar : Nat → Char
  | 0 => '0'
  | 1 => '1'
  | 2 => '2'
  | 3 => '3'
  | 4 => '4'
  | 5 => '5'
  | 6 => '6'
  | 7 => '7'
  | 8 => '8'
  | _ => '9'

/-- Numeric value of a decimal digit character. -/
def digitVal (c : Char) : Nat := c.toNat - 48

/-- Decimal digit characters of a natural number, most significant digit
first. The first argument is structural fuel; it is always called with
enough fuel (`n + 1` suffices because `n / 10` strictly decreases). -/
def natCharsAux : Nat → Nat → List Char
  | 0, _ => []
  | fuel + 1, n =>
    if n < 10 then [digitChar n]
    else natCharsAux fuel (n / 10) ++ [digitChar (n % 10)]

/-- Decimal digit characters of a natural number. -/
def natChars (n : Nat) : List Char := natCharsAux (n + 1) n

/-- Python `str(n)` for a natural number. -/
def natToString (n : Nat) : String := ⟨natChars n⟩

/-- Zero padding on the left, as in the `%04d` / `%02d` format specifiers. -/
def padZero (w : Nat) (s : String) : String :=
  ⟨List.replicate (w - s.toList.length) '0' ++ s.toList⟩

/-- Value of a decimal digit string, most significant digit first. -/
def digitsVal (l : List Char) : Nat := l.foldl (fun a c => a * 10 + digitVal c) 0

/-- Python `str.strip()` on a character list: whitespace removed from both
ends. -/
def pyStripL (cs : List Char) : List Char :=
  ((cs.dropWhile Char.isWhitespace).reverse.dropWhile Char.isWhitespace).reverse

/-- Python `str.strip()`. -/
def pyStrip (s : String) : String := ⟨pyStripL s.toList⟩

/-- Parse a nonempty all-digit character list. -/
def parseDigits (ds : List Char) : Option Nat :=
  if ds ≠ [] ∧ ds.all Char.isDigit then some (digitsVal ds) else none

/-- Worker for `pyInt`: optional sign, then decimal digits. -/
def pyIntL : List Char → Option Int
  | [] => none
  | c :: rest =>
    if c = '-' then (parseDigits rest).map (fun n => -(n : Int))
    else if c = '+' then (parseDigits rest).map (fun n => (n : Int))
    else (parseDigits (c :: rest)).map (fun n => (n : Int))

/-- Python `int(s)` on decimal literals: optional surrounding whitespace,
optional sign, then decimal digits. `none` models the `ValueError` raised
on any other shape. -/
def pyInt (s : String) : Option Int := pyIntL (pyStripL s.toList)

/-- Lexicographic (by Unicode code point) comparison of character lists,
modelling Python's string order; used for `sorted(monthly.keys())`. -/
def charListLe : List Char → List Char → Bool
  | [], _ => true
  | _ :: _, [] => false
  | a :: as, b :: bs =>
    if a.toNat < b.toNat then true
    else if b.toNat < a.toNat then false
    else charListLe as bs

/-- Lexicographic order on strings (the order Python's `sorted` uses for
the `YYYY-MM` month labels). -/
def strLe (a b : String) : Prop := charListLe a.toList b.toList = true

instance : DecidableRel strLe := fun a b =>
  inferInstanceAs (Decidable (_ = true))

/-- A wall-clock timestamp at one-second granularity, modelling `datetime`.
`sec` is the second within the day (0 for `datetime.min.time()`, 86399 for
23:59:59). -/
structure DT where
  year : Nat
  month : Nat
  day : Nat
  sec : Nat
deriving DecidableEq

/-- Timestamp comparison `a <= b`, lexicographic on
(year, month, day, second), modelling `datetime` order. -/
def DT.leb (a b : DT) : Bool :=
  if a.year ≠ b.year then decide (a.year < b.year)
  else if a.month ≠ b.month then decide (a.month < b.month)
  else if a.day ≠ b.day then decide (a.day < b.day)
  else decide (a.sec ≤ b.sec)

/-- A calendar date, modelling Python `date`. -/
structure PyDate where
  year : Nat
  month : Nat
  day : Nat
deriving DecidableEq

/-- Gregorian leap-year test (as validated by `datetime`). -/
def leapYear (y : Nat) : Bool := decide ((y % 4 = 0 ∧ y % 100 ≠ 0) ∨ y % 400 = 0)

/-- Number of days in a month (as validated by `datetime`). -/
def daysInMonth (y m : Nat) : Nat :=
  if m = 2 then (if leapYear y then 29 else 28)
  else if m = 4 ∨ m = 6 ∨ m = 9 ∨ m = 11 then 30 else 31

/-- Split a character list on the dash separator (the shape expected by
the `%Y-%m-%d` format). -/
def splitDashAux : List Char → List Char → List (List Char)
  | [], cur => [cur.reverse]
  | c :: rest, cur =>
    if c = '-' then cur.reverse :: splitDashAux rest []
    else splitDashAux rest (c :: cur)

/-- `_parse_date(s)` (app.py:193-199): `datetime.strptime(s, "%Y-%m-%d").date()`
with a falsy input or a `ValueError` mapped to `none`. CPython's strptime
requires exactly four digits for `%Y`, one or two digits for `%m` and `%d`,
and the datetime constructor validates the month and the day-of-month. -/
def parse_date (s : String) : Option PyDate :=
  if s = "" then none
  else
    match splitDashAux s.toList [] with
    | [ys, ms, ds] =>
      if ys.length = 4 ∧ ys.all Char.isDigit ∧
         1 ≤ ms.length ∧ ms.length ≤ 2 ∧ ms.all Char.isDigit ∧
         1 ≤ ds.length ∧ ds.length ≤ 2 ∧ ds.all Char.isDigit then
        let y := digitsVal ys
        let m := digitsVal ms
        let d := digitsVal ds
        if 1 ≤ m ∧ m ≤ 12 ∧ 1 ≤ d ∧ d ≤ daysInMonth y m then some ⟨y, m, d⟩
        else none
      else none
    | _ => none

/-- `datetime.combine(d, time)` at second granularity. -/
def dtCombine (d : PyDate) (sec : Nat) : DT := ⟨d.year, d.month, d.day, sec⟩

/-- `float(x or 0)`: Python `or` returns 0 when the amount is falsy (0.0). -/
def pyOrZero (x : ℚ) : ℚ := if x = 0 then 0 else x

/-- Python `round(x, 2)` modelled on rationals. -/
def pyRound2 (x : ℚ) : ℚ := ((round (x * 100) : ℤ) : ℚ) / 100

/-- Python `round(x, 1)` modelled on rationals. -/
def pyRound1 (x : ℚ) : ℚ := ((round (x * 10) : ℤ) : ℚ) / 10

/-- A `Category` row (app.py:59-73): name, optional parent id, owner. -/
structure Category where
  id : Nat
  name : String
  parent_id : Option Nat
  user_id : Nat
deriving DecidableEq

/-- A `Transaction` row (app.py:76-89). `description` and `merchant` are
nullable; `category_id` is a nullable foreign key. -/
structure Transaction where
  id : Nat
  amount : ℚ
  transaction_type : String
  date : DT
  description : Option String
  merchant : Option String
  category_id : Option Nat
  user_id : Nat
deriving DecidableEq

/-- A `Budget` row (app.py:92-103). -/
structure Budget where
  id : Nat
  amount : ℚ
  month : String
  warning_pct : ℚ
  category_id : Option Nat
  user_id : Nat
deriving DecidableEq

/-- Resolution of a SQLAlchemy relationship from a nullable foreign key:
the category row whose primary key equals the stored id, if any. -/
def resolveCat (cats : List Category) (cid : Option Nat) : Option Category :=
  cid.bind (fun i => cats.find? (fun c => decide (c.id = i)))

/-- `Category.full_name` (app.py:70-73): `"{parent.name} / {name}"` when the
parent relationship resolves, else just the name. -/
def full_name (cats : List Category) (c : Category) : String :=
  match resolveCat cats c.parent_id with
  | some p => p.name ++ " / " ++ c.name
  | none => c.name

/-- `_month_str` (app.py:189-190): `f"{d.year:04d}-{d.month:02d}"`. -/
def month_str (d : DT) : String :=
  padZero 4 (natToString d.year) ++ "-" ++ padZero 2 (natToString d.month)

/-- The data of a submitted `FilterForm` (forms.py:51-61). Fields are the
raw request strings; an absent field behaves like the empty string (both
are falsy and every use in `_apply_filters` is guarded by truthiness). -/
structure FilterForm where
  transaction_type : String
  category_id : String
  start_date : String
  end_date : String
  search : String
deriving DecidableEq

/-- The SQL test `Transaction.category_id == cid` for an integer `cid`:
NULL compares unequal to everything. -/
def catMatches (t : Transaction) (cid : Int) : Bool :=
  match t.category_id with
  | some n => decide ((n : Int) = cid)
  | none => false

/-- SQL `LIKE` pattern matching, case-insensitive (`ilike`): `%` matches any
sequence, `_` matches any single character, any other pattern character must
match up to ASCII case. -/
def likeMatch : List Char → List Char → Bool
  | [], [] => true
  | [], _ :: _ => false
  | '%' :: ps, xs =>
    likeMatch ps xs ||
      (match xs with
       | [] => false
       | _ :: xs0 => likeMatch ('%' :: ps) xs0)
  | '_' :: _, [] => false
  | '_' :: ps, _ :: xs => likeMatch ps xs
  | _ :: _, [] => false
  | p :: ps, x :: xs => decide (p.toLower = x.toLower) && likeMatch ps xs
termination_by ps xs => (ps.length, xs.length)

/-- The search stage of `_apply_filters` (app.py:240-247): the pattern
`f"%{search.strip()}%"` is tested with `ilike` against the description and
the merchant; a NULL column never matches (SQL three-valued logic). -/
def searchKeep (search : String) (t : Transaction) : Bool :=
  let pat := '%' :: pyStripL search.toList ++ ['%']
  (match t.description with
   | some d => likeMatch pat d.toList
   | none => false) ||
  (match t.merchant with
   | some m => likeMatch pat m.toList
   | none => false)

/-- `_apply_filters(query, f)` (app.py:222-248), applied to a materialised
transaction list. Each stage narrows the list exactly when the code adds a
`.filter(...)` clause; the `try/except ValueError` around `int(...)` is the
`none` branch of `pyInt`. -/
def apply_filters (f : FilterForm) (txs : List Transaction) : List Transaction :=
  let q1 :=
    if f.transaction_type ≠ "" ∧ f.transaction_type ≠ "all" then
      txs.filter (fun t => decide (t.transaction_type = f.transaction_type))
    else txs
  let q2 :=
    if f.category_id ≠ "" ∧ f.category_id ≠ "all" then
      match pyInt f.category_id with
      | some cid => q1.filter (fun t => catMatches t cid)
      | none => q1
    else q1
  let q3 :=
    match parse_date f.start_date with
    | some d => q2.filter (fun t => DT.leb (dtCombine d 0) t.date)
    | none => q2
  let q4 :=
    match parse_date f.end_date with
    | some d => q3.filter (fun t => DT.leb t.date (dtCombine d 86399))
    | none => q3
  if f.search ≠ "" then q4.filter (searchKeep f.search) else q4

/-- `total_income` (app.py:283): sum of amounts over Income transactions of
the filtered view. -/
def total_income (transactions : List Transaction) : ℚ :=
  ((transactions.filter (fun t => decide (t.transaction_type = "Income"))).map
    (fun t => t.amount)).sum

/-- `total_expense` (app.py:284). -/
def total_expense (transactions : List Transaction) : ℚ :=
  ((transactions.filter (fun t => decide (t.transaction_type = "Expense"))).map
    (fun t => t.amount)).sum

/-- `net_balance` (app.py:285). -/
def net_balance (transactions : List Transaction) : ℚ :=
  total_income transactions - total_expense transactions

/-- State of the `monthly` defaultdict (app.py:288): the keys in first-seen
order, and the accumulated inner mapping (inner dicts start at
`{"Income": 0.0, "Expense": 0.0}`, modelled as the zero function). -/
abbrev MonthlyAcc := List String × (String → String → ℚ)

/-- One iteration of the `for t in transactions` loop (app.py:291-293):
`monthly[key][t.transaction_type] += float(t.amount or 0)`. -/
def monthlyStep (acc : MonthlyAcc) (t : Transaction) : MonthlyAcc :=
  let key := month_str t.date
  (if key ∈ acc.1 then acc.1 else acc.1 ++ [key],
   fun k ty =>
     if k = key ∧ ty = t.transaction_type then acc.2 k ty + pyOrZero t.amount
     else acc.2 k ty)

/-- The `monthly` defaultdict after the loop (app.py:288-293). -/
def monthlyOf (transactions : List Transaction) : MonthlyAcc :=
  transactions.foldl monthlyStep ([], fun _ _ => 0)

/-- `months = sorted(monthly.keys())` (app.py:303). -/
def monthsOf (transactions : List Transaction) : List String :=
  List.insertionSort strLe (monthlyOf transactions).1

/-- `income_series` (app.py:304). -/
def income_series (transactions : List Transaction) : List ℚ :=
  (monthsOf transactions).map (fun m => pyRound2 ((monthlyOf transactions).2 m "Income"))

/-- `expense_series` (app.py:305). -/
def expense_series (transactions : List Transaction) : List ℚ :=
  (monthsOf transactions).map (fun m => pyRound2 ((monthlyOf transactions).2 m "Expense"))

/-- The label a transaction's expense amount is bucketed under
(app.py:296-299): the resolved category's full name, else "Uncategorized". -/
def bucketLabel (cats : List Category) (t : Transaction) : String :=
  match resolveCat cats t.category_id with
  | some c => full_name cats c
  | none => "Uncategorized"

/-- `cat_breakdown` (app.py:289, 295-299) as the code computes it: the
`if t.transaction_type == "Expense"` block sits outside the `for` loop, so
only the final value of the loop variable is inspected and bucketed. On an
empty transaction list the loop variable is unbound and reading it raises
`NameError`, modelled as `none`. -/
def cat_breakdown (cats : List Category) (transactions : List Transaction) :
    Option (List (String × ℚ)) :=
  match transactions.getLast? with
  | none => none
  | some t =>
    some (if t.transaction_type = "Expense" then [(bucketLabel cats t, pyOrZero t.amount)]
          else [])

/-- `month_tx` (app.py:313-316): the user's Expense transactions dated on or
after the first day of the reference month — the query has no upper date
bound. -/
def month_tx (txsAll : List Transaction) (uid : Nat) (month_start : DT) :
    List Transaction :=
  (txsAll.filter (fun t => decide (t.user_id = uid))).filter
    (fun t => decide (t.transaction_type = "Expense") && DT.leb month_start t.date)

/-- `month_spend_by_cat` (app.py:318-321): a defaultdict keyed by category
id, modelled as a total function (absent keys read as 0, matching
`dict.get(k, 0.0)`); a transaction only contributes when its category
relationship resolves (`if t.category:`). -/
def month_spend_by_cat (cats : List Category) (mtx : List Transaction) :
    Nat → ℚ :=
  mtx.foldl
    (fun f t =>
      match t.category_id with
      | none => f
      | some i =>
        if (cats.find? (fun c => decide (c.id = i))).isSome then
          fun k => if k = i then f k + pyOrZero t.amount else f k
        else f)
    (fun _ => 0)

/-- `spent` for one budget (app.py:325):
`month_spend_by_cat.get(b.category_id, 0.0) if b.category_id else 0.0`.
Python truthiness makes both `None` and the integer 0 falsy. -/
def spentFor (spend : Nat → ℚ) : Option Nat → ℚ
  | some cid => if cid = 0 then 0 else spend cid
  | none => 0

/-- `used_pct` (app.py:326): `(spent / b.amount) if b.amount else 0.0`.
Division is embedded as fallible (`none` would be a `ZeroDivisionError`);
the truthiness guard on `b.amount` keeps a zero divisor away from it. -/
def used_pct_checked (spent amount : ℚ) : Option ℚ :=
  if amount ≠ 0 then (if amount = 0 then none else some (spent / amount))
  else some 0

/-- One entry of `budget_status` (app.py:327-338). -/
structure BudgetStatus where
  id : Nat
  month : String
  amount : ℚ
  warning_pct : ℚ
  category : String
  spent : ℚ
  remaining : ℚ
  used_pct : ℚ
  is_warning : Bool
  is_over : Bool
deriving DecidableEq

/-- The `budget_status` list (app.py:323-338) for the budgets of the
reference month, given the month spend mapping. -/
def budget_status (cats : List Category) (budgets : List Budget)
    (spend : Nat → ℚ) : List BudgetStatus :=
  budgets.map (fun b =>
    let spent := spentFor spend b.category_id
    let used_pct := (used_pct_checked spent b.amount).getD 0
    let warn := if b.warning_pct = 0 then (4 : ℚ) / 5 else b.warning_pct
    { id := b.id
      month := b.month
      amount := pyRound2 b.amount
      warning_pct := b.warning_pct
      category :=
        match resolveCat cats b.category_id with
        | some c => full_name cats c
        | none => "(No category)"
      spent := pyRound2 spent
      remaining := pyRound2 (b.amount - spent)
      used_pct := pyRound1 (used_pct * 100)
      is_warning := decide (warn ≤ used_pct) && decide (used_pct < 1)
      is_over := decide ((1 : ℚ) ≤ used_pct) })

/-- Ordering used by `order_by(Transaction.date.desc())`. -/
def dateDescRel (a b : Transaction) : Prop := DT.leb b.date a.date = true

instance : DecidableRel dateDescRel := fun a b =>
  inferInstanceAs (Decidable (_ = true))

/-- Everything the `index` view (app.py:254-365) hands to the template that
derives from the aggregation engine. -/
structure IndexOutputs where
  total_income : ℚ
  total_expense : ℚ
  net_balance : ℚ
  months : List String
  income_series : List ℚ
  expense_series : List ℚ
  cat_breakdown : Option (List (String × ℚ))
  budget_status : List BudgetStatus
deriving DecidableEq

/-- The aggregation pipeline of the `index` view (app.py:274-338), over the
raw tables, the authenticated user id, the reference month `(ry, rm)`
(from `datetime.utcnow()`), and the submitted filter form. Every table
query is owner-filtered exactly where the code does it; category rows are
only reached through relationship resolution. -/
def index_outputs (txsAll : List Transaction) (catsAll : List Category)
    (budgetsAll : List Budget) (uid : Nat) (ry rm : Nat) (f : FilterForm) :
    IndexOutputs :=
  let txq := List.insertionSort dateDescRel
    (txsAll.filter (fun t => decide (t.user_id = uid)))
  let transactions := apply_filters f txq
  let current_month := padZero 4 (natToString ry) ++ "-" ++ padZero 2 (natToString rm)
  let budgets := budgetsAll.filter
    (fun b => decide (b.user_id = uid) && decide (b.month = current_month))
  let month_start : DT := ⟨ry, rm, 1, 0⟩
  let spend := month_spend_by_cat catsAll (month_tx txsAll uid month_start)
  { total_income := pyRound2 (total_income transactions)
    total_expense := pyRound2 (total_expense transactions)
    net_balance := pyRound2 (net_balance transactions)
    months := monthsOf transactions
    income_series := income_series transactions
    expense_series := expense_series transactions
    cat_breakdown := cat_breakdown catsAll transactions
    budget_status := budget_status catsAll budgets spend }

/-- The budget upsert of `set_budget` (app.py:466-481): find the first row
matching `(user_id, month, category_id)`; overwrite its amount and
warning_pct in place when found, else append a fresh row. -/
def budget_upsert (uid : Nat) (month : String) (cat : Option Nat)
    (amt w : ℚ) (freshId : Nat) : List Budget → List Budget
  | [] => [⟨freshId, amt, month, w, cat, uid⟩]
  | b :: rest =>
    if b.user_id = uid ∧ b.month = month ∧ b.category_id = cat then
      { b with amount := amt, warning_pct := w } :: rest
    else b :: budget_upsert uid month cat amt w freshId rest

/-- `_category_options` top-level list (app.py:202-207): the caller's
categories sorted by name, those without a parent. -/
def top_cats (cats : List Category) (uid : Nat) : List Category :=
  (List.insertionSort (fun a b => strLe a.name b.name)
    (cats.filter (fun c => decide (c.user_id = uid)))).filter
    (fun c => decide (c.parent_id = none))

/-- `add_category` (app.py:416-439) combined with the `CategoryForm`
validation (forms.py:37-40): the select-field choices are the empty string
plus the ids of the caller's top-level categories, and WTForms rejects a
submission whose `parent_id` is not among them; the name must be 2-120
characters. On success the inserted row is returned; `none` means the
form was rejected and nothing was inserted. -/
def add_category (cats : List Category) (uid : Nat) (name parent_data : String)
    (freshId : Nat) : Option Category :=
  let top := top_cats cats uid
  let choices := "" :: top.map (fun c => natToString c.id)
  if parent_data ∈ choices ∧ 2 ≤ name.toList.length ∧ name.toList.length ≤ 120 then
    let parent : Option Category :=
      if parent_data ≠ "" then
        (pyInt parent_data).bind (fun i =>
          cats.find? (fun c => decide ((c.id : Int) = i) && decide (c.user_id = uid)))
      else none
    some ⟨freshId, pyStrip name, parent.map (fun p => p.id), uid⟩
  else none

/-- The logical upsert key of a budget row. -/
def budgetKey (uid : Nat) (month : String) (cat : Option Nat) (b : Budget) : Bool :=
  decide (b.user_id = uid ∧ b.month = month ∧ b.category_id = cat)

/-- The per-transaction predicate described by the specification for the
filter evaluator: type, category, date and search constraints combined by
logical AND, with blank / "all" / unparsable values imposing no constraint
and parseable date bounds inclusive (start at 00:00:00, end at 23:59:59). -/
def keepSpec (f : FilterForm) (t : Transaction) : Bool :=
  (decide (f.transaction_type = "") || decide (f.transaction_type = "all") ||
    decide (t.transaction_type = f.transaction_type)) &&
  ((decide (f.category_id = "") || decide (f.category_id = "all") ||
    (match pyInt f.category_id with
     | some cid => catMatches t cid
     | none => true)) &&
  ((match parse_date f.start_date with
    | some d => DT.leb (dtCombine d 0) t.date
    | none => true) &&
  ((match parse_date f.end_date with
    | some d => DT.leb t.date (dtCombine d 86399)
    | none => true) &&
  (decide (f.search = "") || searchKeep f.search t))))

/-- The specification's expense total for one breakdown bucket: every
Expense transaction whose bucket label matches contributes its amount (the
per-transaction behaviour claim C1 describes). -/
def breakdown_spec_sum (cats : List Category) (transactions : List Transaction)
    (label : String) : ℚ :=
  ((transactions.filter (fun t => decide (t.transaction_type = "Expense") &&
      decide (bucketLabel cats t = label))).map (fun t => t.amount)).sum

/-- Display-ordered filtered set for the C1 counter-scenario: two
uncategorized Expense transactions, 10 then 20. -/
def c1tx1 : Transaction := ⟨1, 10, "Expense", ⟨2024, 5, 2, 0⟩, none, none, none, 1⟩

/-- Second transaction of the C1 counter-scenario (the last one iterated). -/
def c1tx2 : Transaction := ⟨2, 20, "Expense", ⟨2024, 5, 1, 0⟩, none, none, none, 1⟩

/-- Category table for the C2 counter-scenario. -/
def c2cats : List Category := [⟨1, "Food", none, 1⟩]

/-- Transaction table for the C2 counter-scenario: one Expense of 50 dated
2024-06-15, one month after the reference month. -/
def c2txs : List Transaction :=
  [⟨1, 50, "Expense", ⟨2024, 6, 15, 0⟩, none, none, some 1, 1⟩]

/-- The specification's `spent` for a budget with a category: Expense
amounts of the user's transactions dated within the reference month (and
only that month) whose category id equals the budget's. -/
def spent_spec (txsAll : List Transaction) (uid ry rm cid : Nat) : ℚ :=
  ((txsAll.filter (fun t => decide (t.user_id = uid) &&
      decide (t.transaction_type = "Expense") &&
      decide (t.date.year = ry) && decide (t.date.month = rm) &&
      decide (t.category_id = some cid))).map (fun t => t.amount)).sum

/-- The specification's monthly sum: amounts of the transactions of one
month label and one type. -/
def monthTypeSum (transactions : List Transaction) (m ty : String) : ℚ :=
  ((transactions.filter (fun t => decide (month_str t.date = m) &&
      decide (t.transaction_type = ty))).map (fun t => t.amount)).sum

/-- Case-sensitive list-level test that the second list starts with the
first (spec-side building block for substring containment). -/
def startsWithL : List Char → List Char → Bool
  | [], _ => true
  | _ :: _, [] => false
  | a :: as, b :: bs => decide (a = b) && startsWithL as bs

/-- List-level contiguous containment of the first list in the second
(spec-side building block for substring containment). -/
def containsL (n : List Char) : List Char → Bool
  | [] => decide (n = [])
  | c :: rest => startsWithL n (c :: rest) || containsL n rest

/-- Case-insensitive substring containment — the match the specification
describes for the search filter. -/
def containsCI (needle hay : String) : Bool :=
  containsL (needle.toList.map Char.toLower) (hay.toList.map Char.toLower)

/-- True when the string holds no SQL LIKE wildcard. -/
def noWildcard (s : String) : Bool :=
  s.toList.all (fun c => decide (c ≠ '%') && decide (c ≠ '_'))

/-- Witness for C8 at a concrete filter and transaction: the search
" food " (whitespace around a wildcard-free core) against a transaction
whose description contains "FOODS". -/
def c8f : FilterForm := ⟨"all", "all", "", "", " food "⟩

/-- Concrete transaction for the C8 witness. -/
def c8t : Transaction :=
  ⟨3, 7, "Expense", ⟨2024, 5, 1, 0⟩, some "Whole FOODS run", none, none, 1⟩

/-- Filter with a whitespace-only search, for the C8 counterexample. -/
def c8fBlank : FilterForm := ⟨"all", "all", "", "", " "⟩

/-- Transaction with no description and no merchant, for the C8
counterexample. -/
def c8tBare : Transaction := ⟨4, 5, "Expense", ⟨2024, 5, 1, 0⟩, none, none, none, 1⟩

/-- The ten decimal digit characters. -/
def digitList : List Char := ['0', '1', '2', '3', '4', '5', '6', '7', '8', '9']

/-- Depth invariant of the category tree: every parent that resolves is
itself parentless (so the tree never exceeds two levels). -/
def depthOK (cats : List Category) (c : Category) : Prop :=
  ∀ p, resolveCat cats c.parent_id = some p → p.parent_id = none

/-- Category table for the C10 witness: one top-level category. -/
def c10cats : List Category := [⟨1, "Food", none, 1⟩]

/-- The row the C10 witness inserts: a child of the top-level category. -/
def c10new : Category := ⟨2, "Dining", some 1, 1⟩

/-- Well-formedness of one user's slice of a store: category primary keys
are unique, and every category reference from the user's transactions,
budgets and categories resolves to a category owned by that user (the
shape every row created through the owner-checked routes has). -/
def storeWF (txsAll : List Transaction) (cats : List Category)
    (budgets : List Budget) (uid : Nat) : Prop :=
  (cats.map (fun c => c.id)).Nodup ∧
  (∀ t ∈ txsAll, t.user_id = uid → ∀ cid, t.category_id = some cid →
    ∃ c ∈ cats, c.id = cid ∧ c.user_id = uid) ∧
  (∀ b ∈ budgets, b.user_id = uid → ∀ cid, b.category_id = some cid →
    ∃ c ∈ cats, c.id = cid ∧ c.user_id = uid) ∧
  (∀ c ∈ cats, c.user_id = uid → ∀ pid, c.parent_id = some pid →
    ∃ p ∈ cats, p.id = pid ∧ p.user_id = uid)

/-- A filter form that applies no constraint (every field blank or "all"). -/
def c9f : FilterForm := ⟨"all", "all", "", "", ""⟩

/-- User 1's own rows, for the C9 witness. -/
def c9txOwn : List Transaction :=
  [⟨1, 30, "Expense", ⟨2024, 5, 3, 0⟩, some "lunch", none, some 7, 1⟩]

/-- User 1's category table slice, for the C9 witness. -/
def c9catsOwn : List Category := [⟨7, "Food", none, 1⟩]

/-- User 1's budget slice, for the C9 witness. -/
def c9budOwn : List Budget := [⟨1, 100, "2024-05", 1, some 7, 1⟩]

/-- A second store: the same owned rows plus rows of user 2. -/
def c9txB : List Transaction :=
  c9txOwn ++ [⟨2, 99, "Expense", ⟨2024, 5, 4, 0⟩, none, none, none, 2⟩]

/-- Category table of the second C9 store. -/
def c9catsB : List Category := c9catsOwn ++ [⟨8, "Other", none, 2⟩]

/-- Budget table of the second C9 store. -/
def c9budB : List Budget := c9budOwn ++ [⟨2, 50, "2024-05", 1, none, 2⟩]

/-- Transactions for the C9 counterexample: user 1's transaction references
category id 7, which user 1 does not own. -/
def c9leakTx : List Transaction :=
  [⟨1, 30, "Expense", ⟨2024, 5, 1, 0⟩, none, none, some 7, 1⟩]

/-- Category table for the C9 counterexample: id 7 belongs to user 2. -/
def c9leakCats : List Category := [⟨7, "Secret stash", none, 2⟩]

/-- C3: for every transaction set, the computed net balance equals total
income minus total expense exactly, where total income is the sum of the
amounts of the Income transactions and total expense the sum of the amounts
of the Expense transactions of the filtered set. -/
theorem c3_net_balance_exact (transactions : List Transaction) :
    net_balance transactions =
      ((transactions.filter (fun t => decide (t.transaction_type = "Income"))).map
        (fun t => t.amount)).sum -
      ((transactions.filter (fun t => decide (t.transaction_type = "Expense"))).map
        (fun t => t.amount)).sum := rfl

/-- C5: for every budget, `used_pct` is `spent / amount` guarded so the
division is never evaluated with a zero divisor: the result is always
`some` (never a `ZeroDivisionError`), equal to 0 when the amount is 0 and
to the quotient otherwise. -/
theorem c5_used_pct_no_div_by_zero (spent amount : ℚ) :
    used_pct_checked spent amount =
      some (if amount = 0 then 0 else spent / amount) := by
  unfold used_pct_checked
  by_cases h : amount = 0 <;> simp [h]

/-- Helper: the upsert walks past rows that do not match the key. -/
theorem budget_upsert_append (uid : Nat) (month : String) (cat : Option Nat)
    (amt w : ℚ) (freshId : Nat) (l m : List Budget)
    (h : ∀ b ∈ l, budgetKey uid month cat b = false) :
    budget_upsert uid month cat amt w freshId (l ++ m) =
      l ++ budget_upsert uid month cat amt w freshId m := by
  induction l with
  | nil => rfl
  | cons b rest ih =>
    have hb : budgetKey uid month cat b = false := h b (List.mem_cons_self b rest)
    have hb' : ¬(b.user_id = uid ∧ b.month = month ∧ b.category_id = cat) := by
      simpa [budgetKey] using hb
    simp only [List.cons_append, budget_upsert, if_neg hb', List.append_eq]
    rw [ih (fun x hx => h x (List.mem_cons_of_mem b hx))]

/-- C6: upserting twice with the same (owner, month, category) key, starting
from a store with no row for that key, leaves exactly one row for the key,
carrying the amount and warning threshold of the later call; the first call
inserts one row and the second overwrites in place (no growth). -/
theorem c6_upsert_single_row (store : List Budget) (uid : Nat) (month : String)
    (cat : Option Nat) (a1 w1 a2 w2 : ℚ) (id1 id2 : Nat)
    (h0 : store.filter (budgetKey uid month cat) = []) :
    ((budget_upsert uid month cat a2 w2 id2
        (budget_upsert uid month cat a1 w1 id1 store)).filter
      (budgetKey uid month cat)).length = 1 ∧
    (∀ b ∈ (budget_upsert uid month cat a2 w2 id2
        (budget_upsert uid month cat a1 w1 id1 store)).filter
      (budgetKey uid month cat), b.amount = a2 ∧ b.warning_pct = w2) ∧
    (budget_upsert uid month cat a1 w1 id1 store).length = store.length + 1 ∧
    (budget_upsert uid month cat a2 w2 id2
        (budget_upsert uid month cat a1 w1 id1 store)).length =
      (budget_upsert uid month cat a1 w1 id1 store).length := by
  have hmem : ∀ b ∈ store, budgetKey uid month cat b = false := by
    intro b hb
    by_contra hcontra
    have : budgetKey uid month cat b = true := by
      cases hval : budgetKey uid month cat b
      · exact absurd hval hcontra
      · rfl
    have : b ∈ store.filter (budgetKey uid month cat) :=
      List.mem_filter.mpr ⟨hb, this⟩
    rw [h0] at this
    exact absurd this (List.not_mem_nil b)
  have h1 : budget_upsert uid month cat a1 w1 id1 store =
      store ++ [⟨id1, a1, month, w1, cat, uid⟩] := by
    have := budget_upsert_append uid month cat a1 w1 id1 store [] hmem
    simpa using this
  have h2 : budget_upsert uid month cat a2 w2 id2
      (store ++ [⟨id1, a1, month, w1, cat, uid⟩]) =
      store ++ [⟨id1, a2, month, w2, cat, uid⟩] := by
    rw [budget_upsert_append uid month cat a2 w2 id2 store _ hmem]
    simp [budget_upsert]
  rw [h1, h2]
  refine ⟨?_, ?_, ?_, ?_⟩
  · simp [List.filter_append, h0, budgetKey]
  · intro b hb
    rw [List.filter_append, h0] at hb
    simp only [List.nil_append] at hb
    have : b = ⟨id1, a2, month, w2, cat, uid⟩ := by
      simpa [budgetKey] using hb
    simp [this]
  · simp
  · simp

/-- Witness for C6 at a concrete store and key. -/
theorem c6_upsert_single_row_witness :
    ((budget_upsert 1 "2024-05" (some 2) 70 (9/10) 11
        (budget_upsert 1 "2024-05" (some 2) 50 (4/5) 10 [])).filter
      (budgetKey 1 "2024-05" (some 2))).length = 1 ∧
    (∀ b ∈ (budget_upsert 1 "2024-05" (some 2) 70 (9/10) 11
        (budget_upsert 1 "2024-05" (some 2) 50 (4/5) 10 [])).filter
      (budgetKey 1 "2024-05" (some 2)), b.amount = 70 ∧ b.warning_pct = 9/10) ∧
    (budget_upsert 1 "2024-05" (some 2) 50 (4/5) 10 ([] : List Budget)).length =
      ([] : List Budget).length + 1 ∧
    (budget_upsert 1 "2024-05" (some 2) 70 (9/10) 11
        (budget_upsert 1 "2024-05" (some 2) 50 (4/5) 10 [])).length =
      (budget_upsert 1 "2024-05" (some 2) 50 (4/5) 10 ([] : List Budget)).length :=
  c6_upsert_single_row [] 1 "2024-05" (some 2) 50 (4/5) 70 (9/10) 10 11 rfl

/-- Helper: a conditional filter is a filter with a guarded predicate. -/
theorem filter_ite {α : Type} (c : Prop) [Decidable c] (p : α → Bool) (l : List α) :
    (if c then l.filter p else l) = l.filter (fun a => if c then p a else true) := by
  split <;> simp

/-- Helper: an optional filter is a filter with a guarded predicate. -/
theorem filter_opt {α β : Type} (o : Option β) (p : β → α → Bool) (l : List α) :
    (match o with | some v => l.filter (p v) | none => l) =
      l.filter (fun a => match o with | some v => p v a | none => true) := by
  cases o <;> simp

/-- Helper: the staged filter pipeline equals one pass with the conjoined
predicate. -/
theorem apply_filters_eq_filter (f : FilterForm) (txs : List Transaction) :
    apply_filters f txs = txs.filter (keepSpec f) := by
  unfold apply_filters
  rcases hps : parse_date f.start_date with _ | ds <;>
    rcases hpe : parse_date f.end_date with _ | de <;>
    rcases hpc : pyInt f.category_id with _ | cid <;>
    by_cases h1 : f.transaction_type = "" <;>
    by_cases h2 : f.transaction_type = "all" <;>
    by_cases h3 : f.category_id = "" <;>
    by_cases h4 : f.category_id = "all" <;>
    by_cases h5 : f.search = "" <;>
    simp [hps, hpe, hpc, h1, h2, h3, h4, h5, List.filter_filter] <;>
    first
    | rfl
    | (refine Eq.symm (List.filter_eq_self.mpr ?_)
       intro t ht
       simp [keepSpec, hps, hpe, hpc, h1, h2, h3, h4, h5])
    | (refine List.filter_congr ?_
       intro t ht
       simp [keepSpec, hps, hpe, hpc, h1, h2, h3, h4, h5, Bool.and_comm,
         Bool.and_left_comm, Bool.and_assoc])

/-- C7: the filter evaluator is total (malformed values never raise) and
equals one pass keeping exactly the transactions that satisfy the
specification's conjunction of constraints, where a type of "" or "all"
imposes no type constraint, a category of "", "all" or an unparsable id
imposes no category constraint, unparsable or absent date bounds are
ignored, and parseable bounds are inclusive (start at 00:00:00 and end at
23:59:59). -/
theorem c7_filters_fail_closed (f : FilterForm) (txs : List Transaction) :
    apply_filters f txs = txs.filter (keepSpec f) :=
  apply_filters_eq_filter f txs

/-- C1 (code bug): on a filtered set of two uncategorized Expense
transactions of 10 and 20, the code's category breakdown holds only the
final iterated transaction's amount (20) under "Uncategorized", while the
claimed per-transaction sum for that bucket is 30; moreover on an empty
filtered set the dangling `if` reads an unbound loop variable (NameError),
modelled as `none`, instead of yielding an empty breakdown. -/
theorem c1_breakdown_last_only :
    cat_breakdown [] [c1tx1, c1tx2] = some [("Uncategorized", 20)] ∧
    breakdown_spec_sum [] [c1tx1, c1tx2] "Uncategorized" = 30 ∧
    cat_breakdown [] [] = none := by
  refine ⟨?_, ?_, rfl⟩
  · simp [cat_breakdown, c1tx1, c1tx2, bucketLabel, resolveCat, pyOrZero]
  · norm_num [breakdown_spec_sum, c1tx1, c1tx2, bucketLabel, resolveCat]

/-- C2 (code bug): the month-spend query filters only `date >= month_start`
with no upper bound, so for reference month 2024-05 an Expense of 50 dated
2024-06-15 is counted: the code reports spent = 50 for the budget's
category where the claim's month-scoped sum is 0. The claim's other half —
a budget with no category always has spent = 0 — does hold. -/
theorem c2_spent_unbounded :
    spentFor (month_spend_by_cat c2cats (month_tx c2txs 1 ⟨2024, 5, 1, 0⟩))
      (some 1) = 50 ∧
    spent_spec c2txs 1 2024 5 1 = 0 ∧
    ∀ spend : Nat → ℚ, spentFor spend none = 0 := by
  refine ⟨?_, ?_, fun _ => rfl⟩
  · norm_num [spentFor, month_spend_by_cat, month_tx, c2cats, c2txs, DT.leb,
      pyOrZero]
  · simp [spent_spec, c2txs]

/-- Helper: `x or 0` is the identity on rationals. -/
theorem pyOrZero_eq (x : ℚ) : pyOrZero x = x := by
  unfold pyOrZero
  split <;> simp [*]

/-- Helper: totality of the lexicographic character order. -/
theorem charListLe_total (a b : List Char) :
    charListLe a b = true ∨ charListLe b a = true := by
  induction a generalizing b with
  | nil => left; rfl
  | cons x xs ih =>
    cases b with
    | nil => right; rfl
    | cons y ys =>
      simp only [charListLe]
      rcases Nat.lt_trichotomy x.toNat y.toNat with h | h | h
      · left; simp [h]
      · have h1 : ¬ x.toNat < y.toNat := by omega
        have h2 : ¬ y.toNat < x.toNat := by omega
        rcases ih ys with h3 | h3 <;> simp_all
      · right; simp [h, Nat.lt_asymm h]

instance : IsTotal String strLe := ⟨fun a b => charListLe_total a.toList b.toList⟩

/-- Helper: transitivity of the lexicographic character order. -/
theorem charListLe_trans (a b c : List Char)
    (h1 : charListLe a b = true) (h2 : charListLe b c = true) :
    charListLe a c = true := by
  induction a generalizing b c with
  | nil => rfl
  | cons x xs ih =>
    cases b with
    | nil => simp [charListLe] at h1
    | cons y ys =>
      cases c with
      | nil => simp [charListLe] at h2
      | cons z zs =>
        simp only [charListLe] at h1 h2 ⊢
        split at h1
        · rename_i hxy
          split at h2
          · rename_i hyz
            have hx : x.toNat < z.toNat := by omega
            simp [hx]
          · split at h2
            · exact absurd h2 (by simp)
            · rename_i hyz hzy
              have hx : x.toNat < z.toNat := by omega
              simp [hx]
        · split at h1
          · exact absurd h1 (by simp)
          · rename_i hxy hyx
            split at h2
            · rename_i hyz
              have hx : x.toNat < z.toNat := by omega
              simp [hx]
            · split at h2
              · exact absurd h2 (by simp)
              · rename_i hyz hzy
                have h3 : ¬ x.toNat < z.toNat := by omega
                have h4 : ¬ z.toNat < x.toNat := by omega
                simp only [h3, h4, if_false]
                exact ih ys zs h1 h2

instance : IsTrans String strLe :=
  ⟨fun a b c => charListLe_trans a.toList b.toList c.toList⟩

/-- Helper: the accumulated inner mapping of the `monthly` defaultdict is
the initial value plus the per-month per-type sum of the processed
transactions. -/
theorem monthlyOf_val (transactions : List Transaction) (acc : MonthlyAcc)
    (k ty : String) :
    (transactions.foldl monthlyStep acc).2 k ty =
      acc.2 k ty + monthTypeSum transactions k ty := by
  induction transactions generalizing acc with
  | nil => simp [monthTypeSum]
  | cons t ts ih =>
    rw [List.foldl_cons, ih]
    by_cases hm : month_str t.date = k
    · by_cases hty : t.transaction_type = ty
      · simp [monthlyStep, monthTypeSum, hm, hty, pyOrZero_eq, add_assoc]
      · have hty' : ¬ ty = t.transaction_type := fun h => hty h.symm
        simp [monthlyStep, monthTypeSum, hm, hty, hty']
    · have hm' : ¬ k = month_str t.date := fun h => hm h.symm
      by_cases hty : t.transaction_type = ty
      · simp [monthlyStep, monthTypeSum, hm, hm', hty]
      · have hty' : ¬ ty = t.transaction_type := fun h => hty h.symm
        simp [monthlyStep, monthTypeSum, hm, hm', hty, hty']

/-- Helper: membership in the key list of the `monthly` defaultdict. -/
theorem monthlyOf_mem_keys (transactions : List Transaction) (acc : MonthlyAcc)
    (m : String) :
    m ∈ (transactions.foldl monthlyStep acc).1 ↔
      m ∈ acc.1 ∨ m ∈ transactions.map (fun t => month_str t.date) := by
  induction transactions generalizing acc with
  | nil => simp
  | cons t ts ih =>
    rw [List.foldl_cons, ih]
    by_cases hk : month_str t.date ∈ acc.1
    · simp only [monthlyStep, if_pos hk, List.map_cons, List.mem_cons]
      constructor
      · rintro (h | h)
        · exact Or.inl h
        · exact Or.inr (Or.inr h)
      · rintro (h | h | h)
        · exact Or.inl h
        · rw [h]; exact Or.inl hk
        · exact Or.inr h
    · simp only [monthlyStep, if_neg hk, List.map_cons, List.mem_cons,
        List.mem_append, List.mem_singleton]
      constructor
      · rintro ((h | (h | h)) | h)
        · exact Or.inl h
        · exact Or.inr (Or.inl h)
        · exact absurd h (List.not_mem_nil m)
        · exact Or.inr (Or.inr h)
      · rintro (h | h | h)
        · exact Or.inl (Or.inl h)
        · exact Or.inl (Or.inr (Or.inl h))
        · exact Or.inr h

/-- Helper: the key list of the `monthly` defaultdict stays duplicate-free. -/
theorem monthlyOf_keys_nodup (transactions : List Transaction) (acc : MonthlyAcc)
    (h : acc.1.Nodup) : (transactions.foldl monthlyStep acc).1.Nodup := by
  induction transactions generalizing acc with
  | nil => exact h
  | cons t ts ih =>
    rw [List.foldl_cons]
    refine ih _ ?_
    by_cases hk : month_str t.date ∈ acc.1 <;>
      simp [monthlyStep, hk, List.nodup_append, h]

/-- C4: the monthly series groups the filtered transactions by the YYYY-MM
label of their date: the emitted labels are in ascending lexicographic
order, their number is the number of distinct labels, and the Income and
Expense arrays align index-by-index with the label list, carrying that
month's Income and Expense sums (rounded to 2 decimals as presented). -/
theorem c4_monthly_series (transactions : List Transaction) :
    (monthsOf transactions).Sorted strLe ∧
    (monthsOf transactions).length =
      (transactions.map (fun t => month_str t.date)).toFinset.card ∧
    (income_series transactions).length = (monthsOf transactions).length ∧
    (expense_series transactions).length = (monthsOf transactions).length ∧
    income_series transactions =
      (monthsOf transactions).map
        (fun m => pyRound2 (monthTypeSum transactions m "Income")) ∧
    expense_series transactions =
      (monthsOf transactions).map
        (fun m => pyRound2 (monthTypeSum transactions m "Expense")) := by
  have hval : ∀ m ty, (monthlyOf transactions).2 m ty = monthTypeSum transactions m ty := by
    intro m ty
    have := monthlyOf_val transactions ([], fun _ _ => 0) m ty
    simpa [monthlyOf] using this
  refine ⟨List.sorted_insertionSort _ _, ?_, by simp [income_series],
    by simp [expense_series], ?_, ?_⟩
  · have hperm := List.perm_insertionSort strLe (monthlyOf transactions).1
    have hnodup : (monthlyOf transactions).1.Nodup :=
      monthlyOf_keys_nodup transactions ([], fun _ _ => 0) (by simp)
    have hset : (monthlyOf transactions).1.toFinset =
        (transactions.map (fun t => month_str t.date)).toFinset := by
      ext m
      simp only [List.mem_toFinset]
      have := monthlyOf_mem_keys transactions ([], fun _ _ => 0) m
      simpa [monthlyOf] using this
    calc (monthsOf transactions).length
        = (monthlyOf transactions).1.length := hperm.length_eq
      _ = (monthlyOf transactions).1.toFinset.card :=
          (List.toFinset_card_of_nodup hnodup).symm
      _ = (transactions.map (fun t => month_str t.date)).toFinset.card := by
          rw [hset]
  · exact List.map_congr_left (fun m _ => by rw [hval])
  · exact List.map_congr_left (fun m _ => by rw [hval])

/-- Helper: a lone `%` pattern matches everything. -/
theorem likeMatch_all (xs : List Char) : likeMatch ['%'] xs = true := by
  induction xs with
  | nil => simp [likeMatch]
  | cons x t ih => simp [likeMatch, ih]

/-- Helper: an empty-or-not test for `startsWithL` against the empty list. -/
theorem startsWithL_nil (m : List Char) : startsWithL m [] = decide (m = []) := by
  cases m <;> simp [startsWithL]

/-- Helper: a wildcard-free pattern followed by `%` matches exactly the
texts that start with the pattern, up to case. -/
theorem likeMatch_tail_any (n : List Char) (h : List Char)
    (hn : n.all (fun c => decide (c ≠ '%') && decide (c ≠ '_')) = true) :
    likeMatch (n ++ ['%']) h =
      startsWithL (n.map Char.toLower) (h.map Char.toLower) := by
  induction n generalizing h with
  | nil => simpa [startsWithL] using likeMatch_all h
  | cons a as ih =>
    simp only [List.all_cons, Bool.and_eq_true, decide_eq_true_eq] at hn
    obtain ⟨⟨ha1, ha2⟩, hrest⟩ := hn
    cases h with
    | nil => simp [likeMatch, ha1, startsWithL]
    | cons x xs =>
      simp [likeMatch, ha1, ha2, startsWithL,
        ih xs (by simpa [List.all_eq_true] using hrest)]

/-- Helper: the pattern `%n%` with a wildcard-free core matches exactly the
texts containing the core, up to case. -/
theorem likeMatch_sandwich (n : List Char) (h : List Char)
    (hn : n.all (fun c => decide (c ≠ '%') && decide (c ≠ '_')) = true) :
    likeMatch ('%' :: (n ++ ['%'])) h =
      containsL (n.map Char.toLower) (h.map Char.toLower) := by
  induction h with
  | nil =>
    simp [likeMatch, likeMatch_tail_any n [] hn, containsL, startsWithL_nil]
  | cons x xs ih =>
    simp [likeMatch, likeMatch_tail_any n (x :: xs) hn, containsL, ih]

/-- C8 (amended): the search stage runs whenever the raw search string is
non-empty — the truthiness test precedes trimming, so a whitespace-only
search is applied too — and, for a trimmed search string free of SQL LIKE
wildcards, it keeps exactly the transactions in which a present
description or a present merchant contains the trimmed string as a
case-insensitive substring (a NULL column never matches). -/
theorem c8_search_stage (f : FilterForm) (txs : List Transaction)
    (t : Transaction) :
    (f.search ≠ "" →
      apply_filters f txs =
        (apply_filters { f with search := "" } txs).filter (searchKeep f.search)) ∧
    (noWildcard (pyStrip f.search) = true →
      searchKeep f.search t =
        ((match t.description with
          | some d => containsCI (pyStrip f.search) d
          | none => false) ||
         (match t.merchant with
          | some m => containsCI (pyStrip f.search) m
          | none => false))) := by
  constructor
  · intro hs
    simp only [apply_filters]
    simp [hs]
  · intro hw
    have hw2 : (pyStripL f.search.data).all
        (fun c => decide (c ≠ '%') && decide (c ≠ '_')) = true := hw
    have key : ∀ hay : List Char,
        likeMatch ('%' :: (pyStripL f.search.data ++ ['%'])) hay =
          containsL (List.map Char.toLower (pyStripL f.search.data))
            (List.map Char.toLower hay) :=
      fun hay => likeMatch_sandwich _ hay hw2
    unfold searchKeep
    rcases t.description with _ | d <;> rcases t.merchant with _ | m <;>
      simp [containsCI, pyStrip, key]

/-- Witness for C8: the amended statement instantiated and its hypotheses
discharged at the concrete filter and transaction. -/
theorem c8_search_stage_witness :
    c8f.search ≠ "" ∧ noWildcard (pyStrip c8f.search) = true ∧
    (apply_filters c8f [c8t] =
      (apply_filters { c8f with search := "" } [c8t]).filter (searchKeep c8f.search)) ∧
    searchKeep c8f.search c8t =
      ((match c8t.description with
        | some d => containsCI (pyStrip c8f.search) d
        | none => false) ||
       (match c8t.merchant with
        | some m => containsCI (pyStrip c8f.search) m
        | none => false)) :=
  ⟨by decide, by decide,
    (c8_search_stage c8f [c8t] c8t).1 (by decide),
    (c8_search_stage c8f [c8t] c8t).2 (by decide)⟩

/-- C8 counterexample: a whitespace-only search string (empty after
trimming) does not apply "no constraint": it is applied — the truthiness
test runs on the untrimmed string — and it drops a transaction whose
description and merchant are both NULL. -/
theorem c8_whitespace_search_filters :
    pyStrip c8fBlank.search = "" ∧ apply_filters c8fBlank [c8tBare] = [] := by
  constructor
  · decide
  · simp [apply_filters, c8fBlank, c8tBare, parse_date, searchKeep]

/-- Helper: `digitChar` lands in the digit character list. -/
theorem digitChar_mem (d : Nat) (hd : d < 10) : digitChar d ∈ digitList := by
  interval_cases d <;> decide

/-- Helper: the value of a digit character below ten. -/
theorem digitVal_digitChar (d : Nat) (hd : d < 10) : digitVal (digitChar d) = d := by
  interval_cases d <;> decide

/-- Helper: splitting the last character out of `digitsVal`. -/
theorem digitsVal_append (l : List Char) (c : Char) :
    digitsVal (l ++ [c]) = digitsVal l * 10 + digitVal c := by
  unfold digitsVal
  rw [List.foldl_append]
  rfl

/-- Helper: with enough fuel, the digit rendering of `n` is a nonempty
string of digit characters whose value is `n`. -/
theorem natCharsAux_spec (fuel : Nat) : ∀ n : Nat, n < fuel →
    natCharsAux fuel n ≠ [] ∧ (∀ c ∈ natCharsAux fuel n, c ∈ digitList) ∧
      digitsVal (natCharsAux fuel n) = n := by
  induction fuel with
  | zero => intro n h; omega
  | succ fuel ih =>
    intro n h
    by_cases h10 : n < 10
    · refine ⟨by simp [natCharsAux, h10], ?_, ?_⟩
      · intro c hc
        simp [natCharsAux, h10] at hc
        rw [hc]
        exact digitChar_mem n h10
      · simp [natCharsAux, h10, digitsVal, digitVal_digitChar n h10]
    · have hdiv : n / 10 < n := Nat.div_lt_self (by omega) (by omega)
      obtain ⟨h1, h2, h3⟩ := ih (n / 10) (by omega)
      refine ⟨by simp [natCharsAux, h10], ?_, ?_⟩
      · intro c hc
        simp only [natCharsAux, if_neg h10, List.mem_append, List.mem_singleton] at hc
        rcases hc with hc | hc
        · exact h2 c hc
        · rw [hc]
          exact digitChar_mem (n % 10) (Nat.mod_lt n (by omega))
      · simp only [natCharsAux, if_neg h10]
        rw [digitsVal_append, h3, digitVal_digitChar (n % 10) (Nat.mod_lt n (by omega))]
        omega

/-- Helper: `dropWhile` is the identity when the head fails the test. -/
theorem dropWhile_no (p : Char → Bool) (l : List Char)
    (h : ∀ c ∈ l, p c = false) : l.dropWhile p = l := by
  cases l with
  | nil => rfl
  | cons a t => simp [List.dropWhile_cons, h a (by simp)]

/-- Helper: stripping leaves a whitespace-free character list unchanged. -/
theorem pyStripL_no_ws (l : List Char) (h : ∀ c ∈ l, c.isWhitespace = false) :
    pyStripL l = l := by
  unfold pyStripL
  rw [dropWhile_no _ l h,
    dropWhile_no _ l.reverse (fun c hc => h c (List.mem_reverse.mp hc)),
    List.reverse_reverse]

/-- Helper: digit characters are not whitespace. -/
theorem digitList_not_ws : ∀ c ∈ digitList, c.isWhitespace = false := by decide

/-- Helper: digit characters carry no sign. -/
theorem digitList_not_sign : ∀ c ∈ digitList, c ≠ '-' ∧ c ≠ '+' := by decide

/-- Helper: digit characters satisfy `Char.isDigit`. -/
theorem digitList_isDigit : ∀ c ∈ digitList, c.isDigit = true := by decide

/-- Helper: Python `int` round-trips `str` on a natural number. -/
theorem pyInt_natToString (n : Nat) : pyInt (natToString n) = some (n : Int) := by
  obtain ⟨h1, h2, h3⟩ := natCharsAux_spec (n + 1) n (Nat.lt_succ_self n)
  have hchars : (natToString n).toList = natChars n := rfl
  have hws : ∀ c ∈ natChars n, c.isWhitespace = false := fun c hc =>
    digitList_not_ws c (h2 c hc)
  have hstrip : pyStripL (natToString n).toList = natChars n := by
    rw [hchars]
    exact pyStripL_no_ws _ hws
  unfold pyInt
  rw [hstrip]
  cases hnc : natChars n with
  | nil => exact absurd hnc h1
  | cons c rest =>
    have hnc2 : natCharsAux (n + 1) n = c :: rest := hnc
    have hcmem : c ∈ digitList := h2 c (by rw [hnc2]; simp)
    have hnd : c ≠ '-' ∧ c ≠ '+' := digitList_not_sign c hcmem
    have halld : (c :: rest).all Char.isDigit = true := by
      rw [← hnc2]
      simp only [List.all_eq_true]
      intro x hx
      exact digitList_isDigit x (h2 x hx)
    simp only [pyIntL, if_neg hnd.1, if_neg hnd.2]
    unfold parseDigits
    rw [if_pos ⟨by simp, halld⟩]
    rw [show (c :: rest) = natCharsAux (n + 1) n from hnc2.symm, h3]
    simp

/-- Helper: a successful `find?` over an appended list, found on the left. -/
theorem find?_append_left {α : Type} (p : α → Bool) (l1 l2 : List α) (a : α)
    (h : l1.find? p = some a) : (l1 ++ l2).find? p = some a := by
  induction l1 with
  | nil => simp at h
  | cons x t ih =>
    rw [List.cons_append]
    by_cases hx : p x
    · rw [List.find?_cons_of_pos _ hx] at h ⊢
      exact h
    · rw [List.find?_cons_of_neg _ (by simpa using hx)] at h ⊢
      exact ih h

/-- Helper: `find?` over an appended list falls through an unsuccessful
left part. -/
theorem find?_append_right {α : Type} (p : α → Bool) (l1 l2 : List α)
    (h : l1.find? p = none) : (l1 ++ l2).find? p = l2.find? p := by
  induction l1 with
  | nil => simp
  | cons x t ih =>
    rw [List.cons_append]
    by_cases hx : p x
    · rw [List.find?_cons_of_pos _ hx] at h
      simp at h
    · rw [List.find?_cons_of_neg _ (by simpa using hx)] at h ⊢
      exact ih h

/-- Helper: with globally unique ids, looking a member's id up finds
exactly that member. -/
theorem find?_by_id (cats : List Category) (p : Category)
    (hnodup : (cats.map (fun c => c.id)).Nodup) (hp : p ∈ cats) :
    cats.find? (fun c => decide (c.id = p.id)) = some p := by
  cases hf : cats.find? (fun c => decide (c.id = p.id)) with
  | none =>
    have : (cats.find? (fun c => decide (c.id = p.id))).isSome :=
      List.find?_isSome.mpr ⟨p, hp, by simp⟩
    rw [hf] at this
    simp at this
  | some q =>
    have hq1 : q ∈ cats := List.mem_of_find?_eq_some hf
    have hq2 : q.id = p.id := by simpa using List.find?_some hf
    rw [show q = p from List.inj_on_of_nodup_map hnodup hq1 hp hq2]

/-- C10: a category inserted through the creation path has either no parent
or a parent that is one of the caller's own top-level categories, and the
two-level depth invariant is preserved for the grown table. Hypotheses:
primary keys are unique, the fresh id is genuinely fresh (unused and
unreferenced), and the existing table satisfies the invariant. -/
theorem c10_category_depth_le_two (cats : List Category) (uid : Nat)
    (name parent_data : String) (freshId : Nat) (c : Category)
    (hnodup : (cats.map (fun c => c.id)).Nodup)
    (hfresh : ∀ c0 ∈ cats, c0.id ≠ freshId ∧ c0.parent_id ≠ some freshId)
    (hinv : ∀ c0 ∈ cats, depthOK cats c0)
    (hres : add_category cats uid name parent_data freshId = some c) :
    (c.parent_id = none ∨
      ∃ p ∈ cats, c.parent_id = some p.id ∧ p.user_id = uid ∧ p.parent_id = none) ∧
    (∀ c0 ∈ cats ++ [c], depthOK (cats ++ [c]) c0) := by
  unfold add_category at hres
  by_cases hvalid : parent_data ∈ "" :: (top_cats cats uid).map (fun c => natToString c.id) ∧
      2 ≤ name.toList.length ∧ name.toList.length ≤ 120
  case neg => rw [if_neg hvalid] at hres; exact absurd hres (by simp)
  rw [if_pos hvalid] at hres
  simp only [Option.some.injEq] at hres
  have hcid : c.id = freshId := by rw [← hres]
  have hpar : c.parent_id = none ∨
      ∃ p ∈ cats, c.parent_id = some p.id ∧ p.user_id = uid ∧ p.parent_id = none := by
    by_cases hpd : parent_data = ""
    · left
      rw [← hres]
      simp [hpd]
    · have hmem : parent_data ∈ (top_cats cats uid).map (fun c => natToString c.id) := by
        rcases List.mem_cons.mp hvalid.1 with h | h
        · exact absurd h hpd
        · exact h
      obtain ⟨p0, hp0top, hp0eq⟩ := List.mem_map.mp hmem
      have hp0cats : p0 ∈ cats ∧ p0.user_id = uid ∧ p0.parent_id = none := by
        unfold top_cats at hp0top
        have h1 := List.mem_of_mem_filter hp0top
        have h2 : p0.parent_id = none := by simpa using List.of_mem_filter hp0top
        have h3 : p0 ∈ cats.filter (fun cc => decide (cc.user_id = uid)) :=
          (List.perm_insertionSort _ _).mem_iff.mp h1
        exact ⟨List.mem_of_mem_filter h3, by simpa using List.of_mem_filter h3, h2⟩
      have hfind : cats.find?
          (fun cc => decide (cc.id = p0.id) && decide (cc.user_id = uid)) =
            some p0 := by
        cases hf : cats.find?
            (fun cc => decide (cc.id = p0.id) && decide (cc.user_id = uid)) with
        | none =>
          have hsome : (cats.find?
              (fun cc => decide (cc.id = p0.id) &&
                decide (cc.user_id = uid))).isSome :=
            List.find?_isSome.mpr ⟨p0, hp0cats.1, by simp [hp0cats.2.1]⟩
          rw [hf] at hsome
          simp at hsome
        | some q =>
          have hq1 : q ∈ cats := List.mem_of_find?_eq_some hf
          have hq2 := List.find?_some hf
          simp only [Bool.and_eq_true, decide_eq_true_eq] at hq2
          rw [show q = p0 from List.inj_on_of_nodup_map hnodup hq1 hp0cats.1 hq2.1]
      right
      refine ⟨p0, hp0cats.1, ?_, hp0cats.2.1, hp0cats.2.2⟩
      rw [← hres]
      have hne : natToString p0.id ≠ "" := by rw [hp0eq]; exact hpd
      simp only [← hp0eq]
      simp [hne, pyInt_natToString, hfind]
  refine ⟨hpar, ?_⟩
  intro c0 hc0
  rcases List.mem_append.mp hc0 with hc0m | hc0m
  · intro p hp
    rcases hpid : c0.parent_id with _ | pid
    · simp [resolveCat, hpid] at hp
    · simp only [resolveCat, hpid, Option.some_bind] at hp
      cases hf : cats.find? (fun cc => decide (cc.id = pid)) with
      | some q =>
        rw [find?_append_left _ _ _ _ hf] at hp
        have hqp : q = p := Option.some_inj.mp hp
        have hdep := hinv c0 hc0m q (by simp [resolveCat, hpid, hf])
        rw [← hqp]
        exact hdep
      | none =>
        rw [find?_append_right _ _ _ hf] at hp
        have hpidne : freshId ≠ pid := by
          intro hcontra
          have hc2 := (hfresh c0 hc0m).2
          rw [hpid, ← hcontra] at hc2
          exact hc2 rfl
        rw [List.find?_cons_of_neg _ (by simp [hcid, hpidne])] at hp
        simp at hp
  · have hc0c : c0 = c := by simpa using hc0m
    rw [hc0c]
    intro p hp
    rcases hpar with hnone | ⟨p0, hp0cats, hceq, hp0uid, hp0par⟩
    · simp [resolveCat, hnone] at hp
    · rw [hceq] at hp
      simp only [resolveCat, Option.some_bind] at hp
      have hfind0 : cats.find? (fun cc => decide (cc.id = p0.id)) = some p0 :=
        find?_by_id cats p0 hnodup hp0cats
      rw [find?_append_left _ _ _ _ hfind0] at hp
      rw [← Option.some_inj.mp hp]
      exact hp0par

/-- Witness for C10: inserting "Dining" under the existing top-level "Food"
category, with every hypothesis discharged concretely. -/
theorem c10_category_depth_le_two_witness :
    add_category c10cats 1 "Dining" "1" 2 = some c10new ∧
    ((c10new.parent_id = none ∨
      ∃ p ∈ c10cats, c10new.parent_id = some p.id ∧ p.user_id = 1 ∧
        p.parent_id = none) ∧
     (∀ c0 ∈ c10cats ++ [c10new], depthOK (c10cats ++ [c10new]) c0)) :=
  ⟨by decide,
    c10_category_depth_le_two c10cats 1 "Dining" "1" 2 c10new
      (by decide) (by decide)
      (by
        intro c0 hc0 p hp
        simp [c10cats] at hc0
        rw [hc0] at hp
        simp [resolveCat] at hp)
      (by decide)⟩

/-- Helper: the last element of a list is a member. -/
theorem mem_of_getLast?_eq_some {α : Type} {l : List α} {a : α}
    (h : l.getLast? = some a) : a ∈ l := by
  have hmem : a ∈ l.getLast? := Option.mem_def.mpr h
  obtain ⟨hne, heq⟩ := List.mem_getLast?_eq_getLast hmem
  rw [heq]
  exact List.getLast_mem hne

/-- Helper: folds with step functions that agree on the list agree. -/
theorem foldl_congr_mem {α β : Type} (l : List α) (g1 g2 : β → α → β) (i : β)
    (h : ∀ b, ∀ a ∈ l, g1 b a = g2 b a) : l.foldl g1 i = l.foldl g2 i := by
  induction l generalizing i with
  | nil => rfl
  | cons x t ih =>
    rw [List.foldl_cons, List.foldl_cons, h i x (by simp)]
    exact ih _ (fun b a ha => h b a (by simp [ha]))

/-- Helper: a conjunction filter splits into two passes. -/
theorem filter_and_eq {α : Type} (p q : α → Bool) (l : List α) :
    l.filter (fun a => p a && q a) = (l.filter p).filter q := by
  induction l with
  | nil => rfl
  | cons x t ih =>
    by_cases hp : p x <;> by_cases hq : q x <;>
      simp [List.filter_cons, hp, hq, ih]

/-- Helper: an owned category of one store lives in any store with the same
owned slice. -/
theorem mem_own_transfer (cats1 cats2 : List Category) (uid : Nat)
    (hcat : cats1.filter (fun c => decide (c.user_id = uid)) =
      cats2.filter (fun c => decide (c.user_id = uid)))
    (c : Category) (hc : c ∈ cats1) (hu : c.user_id = uid) : c ∈ cats2 := by
  have hmem : c ∈ cats1.filter (fun c => decide (c.user_id = uid)) :=
    List.mem_filter.mpr ⟨hc, by simp [hu]⟩
  rw [hcat] at hmem
  exact List.mem_of_mem_filter hmem

/-- Helper: the full name of an owned category only depends on the owned
slice of the category table (given unique ids and owner-closed parents). -/
theorem full_name_own (cats1 cats2 : List Category) (uid : Nat)
    (hn1 : (cats1.map (fun c => c.id)).Nodup)
    (hn2 : (cats2.map (fun c => c.id)).Nodup)
    (hcat : cats1.filter (fun c => decide (c.user_id = uid)) =
      cats2.filter (fun c => decide (c.user_id = uid)))
    (hpar1 : ∀ c ∈ cats1, c.user_id = uid → ∀ pid, c.parent_id = some pid →
      ∃ p ∈ cats1, p.id = pid ∧ p.user_id = uid)
    (c : Category) (hc1 : c ∈ cats1) (hcu : c.user_id = uid) :
    full_name cats1 c = full_name cats2 c := by
  rcases hcp : c.parent_id with _ | pid
  · simp [full_name, resolveCat, hcp]
  · obtain ⟨p, hp1, hpid, hpu⟩ := hpar1 c hc1 hcu pid hcp
    have hp2 : p ∈ cats2 := mem_own_transfer cats1 cats2 uid hcat p hp1 hpu
    have hf1 : cats1.find? (fun x => decide (x.id = pid)) = some p := by
      rw [← hpid]
      exact find?_by_id cats1 p hn1 hp1
    have hf2 : cats2.find? (fun x => decide (x.id = pid)) = some p := by
      rw [← hpid]
      exact find?_by_id cats2 p hn2 hp2
    simp [full_name, resolveCat, hcp, hf1, hf2]

/-- Helper: the filter evaluator only keeps members of its input. -/
theorem apply_filters_sub (f : FilterForm) (l : List Transaction)
    (t : Transaction) (h : t ∈ apply_filters f l) : t ∈ l := by
  rw [apply_filters_eq_filter] at h
  exact List.mem_of_mem_filter h

/-- C9 (amended): for a well-formed store — unique category ids and only
owner-closed category references from the user's rows — every aggregation
output of the dashboard is a function of the user's own rows alone: two
stores with identical owned slices yield identical outputs, whatever rows
other users hold. -/
theorem c9_owner_scoped_aggregation
    (tx1 : List Transaction) (cats1 : List Category) (bud1 : List Budget)
    (tx2 : List Transaction) (cats2 : List Category) (bud2 : List Budget)
    (uid ry rm : Nat) (f : FilterForm)
    (hwf1 : storeWF tx1 cats1 bud1 uid) (hwf2 : storeWF tx2 cats2 bud2 uid)
    (htx : tx1.filter (fun t => decide (t.user_id = uid)) =
      tx2.filter (fun t => decide (t.user_id = uid)))
    (hcat : cats1.filter (fun c => decide (c.user_id = uid)) =
      cats2.filter (fun c => decide (c.user_id = uid)))
    (hbud : bud1.filter (fun b => decide (b.user_id = uid)) =
      bud2.filter (fun b => decide (b.user_id = uid))) :
    index_outputs tx1 cats1 bud1 uid ry rm f =
      index_outputs tx2 cats2 bud2 uid ry rm f := by
  obtain ⟨hn1, htxref1, hbudref1, hparref1⟩ := hwf1
  obtain ⟨hn2, htxref2, hbudref2, hparref2⟩ := hwf2
  have hmtx : month_tx tx1 uid ⟨ry, rm, 1, 0⟩ = month_tx tx2 uid ⟨ry, rm, 1, 0⟩ := by
    unfold month_tx
    rw [htx]
  have hspend : month_spend_by_cat cats1 (month_tx tx2 uid ⟨ry, rm, 1, 0⟩) =
      month_spend_by_cat cats2 (month_tx tx2 uid ⟨ry, rm, 1, 0⟩) := by
    unfold month_spend_by_cat
    apply foldl_congr_mem
    intro b t ht
    have htm : t ∈ tx2 ∧ t.user_id = uid := by
      unfold month_tx at ht
      have h1 := List.mem_of_mem_filter ht
      exact ⟨List.mem_of_mem_filter h1, by simpa using List.of_mem_filter h1⟩
    rcases hct : t.category_id with _ | cid
    · simp [hct]
    · obtain ⟨c, hc2, hcid, hcu⟩ := htxref2 t htm.1 htm.2 cid hct
      have hc1 : c ∈ cats1 := mem_own_transfer cats2 cats1 uid hcat.symm c hc2 hcu
      have hf1 : cats1.find? (fun x => decide (x.id = cid)) = some c := by
        rw [← hcid]
        exact find?_by_id cats1 c hn1 hc1
      have hf2 : cats2.find? (fun x => decide (x.id = cid)) = some c := by
        rw [← hcid]
        exact find?_by_id cats2 c hn2 hc2
      simp [hct, hf1, hf2]
  have hbreakmem : ∀ t ∈ apply_filters f (List.insertionSort dateDescRel
      (tx2.filter (fun x => decide (x.user_id = uid)))), t ∈ tx2 ∧ t.user_id = uid := by
    intro t ht
    have h1 := apply_filters_sub f _ t ht
    have h2 := (List.perm_insertionSort dateDescRel _).mem_iff.mp h1
    exact ⟨List.mem_of_mem_filter h2, by simpa using List.of_mem_filter h2⟩
  have hbreak : cat_breakdown cats1 (apply_filters f (List.insertionSort dateDescRel
      (tx2.filter (fun x => decide (x.user_id = uid))))) =
      cat_breakdown cats2 (apply_filters f (List.insertionSort dateDescRel
      (tx2.filter (fun x => decide (x.user_id = uid))))) := by
    unfold cat_breakdown
    rcases hlast : (apply_filters f (List.insertionSort dateDescRel
        (tx2.filter (fun x => decide (x.user_id = uid))))).getLast? with _ | t
    · simp only [hlast]
    · simp only [hlast]
      obtain ⟨htmem2, htuid⟩ := hbreakmem t (mem_of_getLast?_eq_some hlast)
      have hlbl : bucketLabel cats1 t = bucketLabel cats2 t := by
        unfold bucketLabel
        rcases hct : t.category_id with _ | cid
        · simp [resolveCat, hct]
        · obtain ⟨c, hc2, hcid, hcu⟩ := htxref2 t htmem2 htuid cid hct
          have hc1 : c ∈ cats1 := mem_own_transfer cats2 cats1 uid hcat.symm c hc2 hcu
          have hf1 : cats1.find? (fun x => decide (x.id = cid)) = some c := by
            rw [← hcid]
            exact find?_by_id cats1 c hn1 hc1
          have hf2 : cats2.find? (fun x => decide (x.id = cid)) = some c := by
            rw [← hcid]
            exact find?_by_id cats2 c hn2 hc2
          have hfn : full_name cats1 c = full_name cats2 c :=
            full_name_own cats1 cats2 uid hn1 hn2 hcat hparref1 c hc1 hcu
          simp [resolveCat, hct, hf1, hf2, hfn]
      rw [hlbl]
  have hbudfilter : ∀ m : String,
      bud1.filter (fun b => decide (b.user_id = uid) && decide (b.month = m)) =
      bud2.filter (fun b => decide (b.user_id = uid) && decide (b.month = m)) := by
    intro m
    rw [filter_and_eq, filter_and_eq, hbud]
  have hstat : ∀ (B : List Budget) (S : Nat → ℚ),
      (∀ b ∈ B, b ∈ bud2 ∧ b.user_id = uid) →
      budget_status cats1 B S = budget_status cats2 B S := by
    intro B S hBmem
    unfold budget_status
    apply List.map_congr_left
    intro b hb
    obtain ⟨hb2, hbu⟩ := hBmem b hb
    rcases hbc : b.category_id with _ | cid
    · simp [resolveCat, hbc]
    · obtain ⟨c, hc2, hcid, hcu⟩ := hbudref2 b hb2 hbu cid hbc
      have hc1 : c ∈ cats1 := mem_own_transfer cats2 cats1 uid hcat.symm c hc2 hcu
      have hf1 : cats1.find? (fun x => decide (x.id = cid)) = some c := by
        rw [← hcid]
        exact find?_by_id cats1 c hn1 hc1
      have hf2 : cats2.find? (fun x => decide (x.id = cid)) = some c := by
        rw [← hcid]
        exact find?_by_id cats2 c hn2 hc2
      have hfn : full_name cats1 c = full_name cats2 c :=
        full_name_own cats1 cats2 uid hn1 hn2 hcat hparref1 c hc1 hcu
      simp [resolveCat, hbc, hf1, hf2, hfn]
  simp only [index_outputs]
  rw [htx, hmtx, hbudfilter, hspend, hbreak]
  rw [hstat _ _ (fun b hb => ⟨List.mem_of_mem_filter hb, by
    have h := List.of_mem_filter hb
    simp only [Bool.and_eq_true, decide_eq_true_eq] at h
    exact h.1⟩)]

/-- Witness for C9: two concrete well-formed stores differing only in user
2's rows give user 1 identical outputs, by the amended theorem. -/
theorem c9_owner_scoped_aggregation_witness :
    storeWF c9txOwn c9catsOwn c9budOwn 1 ∧ storeWF c9txB c9catsB c9budB 1 ∧
    index_outputs c9txOwn c9catsOwn c9budOwn 1 2024 5 c9f =
      index_outputs c9txB c9catsB c9budB 1 2024 5 c9f :=
  ⟨by unfold storeWF; decide, by unfold storeWF; decide,
    c9_owner_scoped_aggregation c9txOwn c9catsOwn c9budOwn c9txB c9catsB c9budB
      1 2024 5 c9f (by unfold storeWF; decide) (by unfold storeWF; decide)
      (by decide) (by decide) (by decide)⟩

/-- C9 counterexample: the claim as stated fails on a store where the
user's transaction references another user's category. Two stores that
differ only in user 2's rows (user 1's slices are equal — empty — in both
category tables) give user 1 different outputs: the relationship lookup is
not owner-filtered, so user 2's category name "Secret stash" appears in
user 1's category breakdown. -/
theorem c9_cross_user_category_leak :
    (c9leakTx.filter (fun t => decide (t.user_id = 1)) =
      c9leakTx.filter (fun t => decide (t.user_id = 1))) ∧
    (c9leakCats.filter (fun c => decide (c.user_id = 1)) =
      ([] : List Category).filter (fun c => decide (c.user_id = 1))) ∧
    index_outputs c9leakTx c9leakCats [] 1 2024 5 c9f ≠
      index_outputs c9leakTx [] [] 1 2024 5 c9f := by
  refine ⟨rfl, by decide, fun h => ?_⟩
  have hb := congrArg IndexOutputs.cat_breakdown h
  simp [index_outputs, apply_filters, parse_date, cat_breakdown, bucketLabel,
    resolveCat, full_name, c9leakTx, c9leakCats, c9f, List.insertionSort,
    List.orderedInsert, pyOrZero, List.find?] at hb

end FinanceTracker
